import Mathlib

/-!
Verification of the BaseMailer secure envelope protocol against its
TypeScript SDK sources (encryption engine, commitment mapper, dispatch
protocol, ingestion protocol).  External libraries (node crypto, noble
secp256k1, JSON, keccak) are modelled as parameters with their documented
contracts; everything the repository itself implements (key wrapping,
MAC checking, hex encoding, control flow of dispatch and ingestion) is
embedded directly from the source.
-/

namespace BaseMailer

/-! ### Bytes -/

/-- Byte strings are lists of naturals; a well-formed byte is `< 256`. -/
abbrev Bytes := List Nat

/-- Every entry of the list is an actual byte value. -/
def ValidBytes (bs : Bytes) : Prop := ∀ b ∈ bs, b < 256

instance (bs : Bytes) : Decidable (ValidBytes bs) :=
  inferInstanceAs (Decidable (∀ b ∈ bs, b < 256))

theorem validBytes_append {a b : Bytes} (ha : ValidBytes a) (hb : ValidBytes b) :
    ValidBytes (a ++ b) := by
  intro x hx
  rcases List.mem_append.mp hx with h | h
  · exact ha x h
  · exact hb x h

theorem validBytes_cons {b : Nat} {bs : Bytes} (hb : b < 256) (hbs : ValidBytes bs) :
    ValidBytes (b :: bs) := by
  intro x hx
  rcases List.mem_cons.mp hx with h | h
  · exact h ▸ hb
  · exact hbs x h

theorem validBytes_nil : ValidBytes [] := by intro x hx; cases hx

theorem validBytes_replicate {n b : Nat} (hb : b < 256) :
    ValidBytes (List.replicate n b) := by
  intro x hx
  rw [List.eq_of_mem_replicate hx]
  exact hb

/-! ### Hex encoding (`src/sdk/src/utils/bytes.ts`)

`toHex` is `0x` + lowercase hex of the buffer; `fromHex` requires the `0x`
prefix (throwing otherwise, modelled as `none`) and then parses hex pairs
with Node `Buffer.from(_, 'hex')` semantics (stop at the first invalid or
incomplete pair). -/

/-- Lowercase hex digit for a value `< 16`. -/
def hexDigitChar (n : Nat) : Char :=
  if n < 10 then Char.ofNat (48 + n) else Char.ofNat (87 + n)

/-- Two lowercase hex digits of one byte. -/
def byteToHexChars (b : Nat) : List Char :=
  [hexDigitChar (b / 16), hexDigitChar (b % 16)]

def bytesToHexChars : Bytes → List Char
  | [] => []
  | b :: rest => byteToHexChars b ++ bytesToHexChars rest

/-- `toHex` from `bytes.ts`: `0x` followed by the lowercase hex digits. -/
def toHex (bs : Bytes) : String := String.mk ('0' :: 'x' :: bytesToHexChars bs)

/-- Value of one hex digit character (upper or lower case), if any. -/
def hexCharVal (c : Char) : Option Nat :=
  if 48 ≤ c.toNat ∧ c.toNat ≤ 57 then some (c.toNat - 48)
  else if 97 ≤ c.toNat ∧ c.toNat ≤ 102 then some (c.toNat - 87)
  else if 65 ≤ c.toNat ∧ c.toNat ≤ 70 then some (c.toNat - 55)
  else none

/-- Node `Buffer.from(_, 'hex')`: consume pairs of hex digits, stopping at
the first invalid or incomplete pair. -/
def hexPairsToBytes : List Char → Bytes
  | c1 :: c2 :: rest =>
    match hexCharVal c1, hexCharVal c2 with
    | some hi, some lo => (16 * hi + lo) :: hexPairsToBytes rest
    | _, _ => []
  | _ => []

/-- JS `value.startsWith('0x')`. -/
def startsWith0x (s : String) : Bool :=
  match s.data with
  | c1 :: c2 :: _ => c1 = '0' && c2 = 'x'
  | _ => false

/-- `fromHex` from `bytes.ts`: throws (`none`) unless the string starts with
`0x`, then decodes the hex pairs. -/
def fromHex (s : String) : Option Bytes :=
  if startsWith0x s then some (hexPairsToBytes (s.data.drop 2)) else none

/-- `ensureHexPrefix` from `EncryptionManager.ts`. -/
def ensureHexPrefixed (s : String) : String :=
  if startsWith0x s then s else String.mk ('0' :: 'x' :: s.data)

theorem hexCharVal_hexDigitChar {n : Nat} (h : n < 16) :
    hexCharVal (hexDigitChar n) = some n := by
  interval_cases n <;> decide

theorem hexPairsToBytes_bytesToHexChars {bs : Bytes} (h : ValidBytes bs) :
    hexPairsToBytes (bytesToHexChars bs) = bs := by
  induction bs with
  | nil => rfl
  | cons b rest ih =>
    have hb : b < 256 := h b (List.mem_cons_self _ _)
    have hrest : ValidBytes rest := fun x hx => h x (List.mem_cons_of_mem _ hx)
    have hhi : b / 16 < 16 := by omega
    have hlo : b % 16 < 16 := by omega
    show hexPairsToBytes (hexDigitChar (b / 16) :: hexDigitChar (b % 16) :: bytesToHexChars rest) = b :: rest
    rw [hexPairsToBytes]
    rw [hexCharVal_hexDigitChar hhi, hexCharVal_hexDigitChar hlo]
    simp only [ih hrest]
    congr 1
    omega

theorem startsWith0x_toHex (bs : Bytes) : startsWith0x (toHex bs) = true := by
  simp [startsWith0x, toHex]

theorem fromHex_toHex {bs : Bytes} (h : ValidBytes bs) : fromHex (toHex bs) = some bs := by
  rw [fromHex, if_pos (by simpa using startsWith0x_toHex bs)]
  show some (hexPairsToBytes ((('0' :: 'x' :: bytesToHexChars bs)).drop 2)) = some bs
  simp [hexPairsToBytes_bytesToHexChars h]

theorem ensureHexPrefixed_toHex (bs : Bytes) : ensureHexPrefixed (toHex bs) = toHex bs := by
  rw [ensureHexPrefixed, if_pos (by simpa using startsWith0x_toHex bs)]

/-! ### Keystream XOR (`wrapSymmetricKey` / `unwrapSymmetricKey` loops)

`out[i] = data[i] ^ mask[i % mask.length]`. -/

def xorMaskAux (mask : Bytes) : Nat → Bytes → Bytes
  | _, [] => []
  | i, b :: rest => (b ^^^ mask.getD (i % mask.length) 0) :: xorMaskAux mask (i + 1) rest

/-- The XOR-with-repeated-mask loop shared by wrap and unwrap. -/
def xorMask (data mask : Bytes) : Bytes := xorMaskAux mask 0 data

theorem xorMaskAux_xorMaskAux (mask : Bytes) (data : Bytes) :
    ∀ i, xorMaskAux mask i (xorMaskAux mask i data) = data := by
  induction data with
  | nil => intro i; rfl
  | cons b rest ih =>
    intro i
    show (b ^^^ mask.getD (i % mask.length) 0 ^^^ mask.getD (i % mask.length) 0)
        :: xorMaskAux mask (i + 1) (xorMaskAux mask (i + 1) rest) = b :: rest
    rw [Nat.xor_assoc, Nat.xor_self, Nat.xor_zero, ih]

/-- Unwrapping with the same mask inverts wrapping. -/
theorem xorMask_xorMask (data mask : Bytes) : xorMask (xorMask data mask) mask = data :=
  xorMaskAux_xorMaskAux mask data 0

theorem getD_lt_of_validBytes {mask : Bytes} (h : ValidBytes mask) (j : Nat) :
    mask.getD j 0 < 256 := by
  rcases Nat.lt_or_ge j mask.length with hj | hj
  · rw [List.getD_eq_getElem mask 0 hj]
    exact h _ (List.getElem_mem hj)
  · rw [List.getD_eq_default _ _ hj]; omega

theorem xorMaskAux_valid {mask data : Bytes} (hm : ValidBytes mask) (hd : ValidBytes data) :
    ∀ i, ValidBytes (xorMaskAux mask i data) := by
  induction data with
  | nil => intro i; exact validBytes_nil
  | cons b rest ih =>
    intro i
    have hb : b < 256 := hd b (List.mem_cons_self _ _)
    have hrest : ValidBytes rest := fun x hx => hd x (List.mem_cons_of_mem _ hx)
    refine validBytes_cons ?_ (ih hrest (i + 1))
    have h1 : b < 2 ^ 8 := hb
    have h2 : mask.getD (i % mask.length) 0 < 2 ^ 8 := getD_lt_of_validBytes hm _
    exact Nat.xor_lt_two_pow h1 h2

theorem xorMask_valid {data mask : Bytes} (hd : ValidBytes data) (hm : ValidBytes mask) :
    ValidBytes (xorMask data mask) := xorMaskAux_valid hm hd 0

/-! ### Data model (`src/sdk/src/types/mail.ts`) -/

structure AttachmentMeta where
  name : String
  mimeType : String
  size : Nat
  cid : Option String
deriving DecidableEq

/-- `MailContent`: the `from` and `to` fields are written `from_` and `to_`
(both are reserved words). -/
structure MailContent where
  from_ : String
  to_ : String
  subject : String
  body : String
  timestamp : Option Nat
  attachments : Option (List AttachmentMeta)
deriving DecidableEq

structure EncryptedContentPayload where
  algorithm : String
  ciphertext : String
  iv : String
  authTag : String
deriving DecidableEq

structure EncryptedKeyPayload where
  algorithm : String
  ephemeralPublicKey : String
  ciphertext : String
  mac : String
deriving DecidableEq

structure MailMetadata where
  version : String
  timestamp : Nat
  size : Nat
  contentType : String
deriving DecidableEq

structure EncryptedMailPackage where
  version : String
  encryptedContent : EncryptedContentPayload
  encryptedKey : EncryptedKeyPayload
  metadata : MailMetadata
deriving DecidableEq

/-! ### External primitives used by the encryption engine

`EncryptionManager` calls node `crypto` (AES-256-GCM, HMAC-SHA256, HKDF),
`@noble/secp256k1` (`getPublicKey`, `getSharedSecret`) and the JS runtime's
`JSON.stringify`/`JSON.parse`.  These are external libraries, modelled as a
parameter structure; `PrimsSound` states the contracts the engine relies on
(documented behaviour of those libraries). -/

structure Prims where
  /-- `JSON.stringify` of a canonicalized `MailContent`, as UTF-8 bytes. -/
  serialize : MailContent → Bytes
  /-- `JSON.parse` of UTF-8 bytes back to a `MailContent` (may fail). -/
  deserialize : Bytes → Option MailContent
  /-- `createCipheriv('aes-256-gcm', key, iv)`: ciphertext and auth tag. -/
  gcmEncrypt : Bytes → Bytes → Bytes → Bytes × Bytes
  /-- GCM decryption: `none` models the tag-verification throw in `final()`. -/
  gcmDecrypt : Bytes → Bytes → Bytes → Bytes → Option Bytes
  /-- `getPublicKey(priv, true)`: compressed public key. -/
  getPublicKey : Bytes → Bytes
  /-- `getSharedSecret(priv, pub, true)` (format byte still present). -/
  getSharedSecret : Bytes → Bytes → Bytes
  /-- `deriveKey` (`hkdf.ts`): HKDF-SHA256 of the secret with an info label. -/
  hkdfSha256 : Bytes → String → Nat → Bytes
  /-- `createHmac('sha256', key).update(msg).digest()`. -/
  hmacSha256 : Bytes → Bytes → Bytes
  /-- Validity of a secp256k1 private key (nonzero, below the curve order). -/
  validPriv : Bytes → Prop

/-- Documented contracts of the external cryptographic libraries. -/
structure PrimsSound (P : Prims) : Prop where
  serialize_valid : ∀ c, ValidBytes (P.serialize c)
  deserialize_serialize : ∀ c, P.deserialize (P.serialize c) = some c
  gcm_roundtrip : ∀ k iv pt, k.length = 32 → iv.length = 12 →
    P.gcmDecrypt k iv (P.gcmEncrypt k iv pt).1 (P.gcmEncrypt k iv pt).2 = some pt
  gcm_valid : ∀ k iv pt, ValidBytes k → ValidBytes iv → ValidBytes pt →
    ValidBytes (P.gcmEncrypt k iv pt).1 ∧ ValidBytes (P.gcmEncrypt k iv pt).2
  pub_valid : ∀ sk, ValidBytes (P.getPublicKey sk)
  ecdh_symm : ∀ a b, P.validPriv a → P.validPriv b →
    P.getSharedSecret a (P.getPublicKey b) = P.getSharedSecret b (P.getPublicKey a)
  hkdf_length : ∀ s info n, (P.hkdfSha256 s info n).length = n
  hkdf_valid : ∀ s info n, ValidBytes (P.hkdfSha256 s info n)
  hmac_valid : ∀ k m, ValidBytes (P.hmacSha256 k m)

/-! ### Hybrid encryption engine (`EncryptionManager`)

`encrypt`'s fresh randomness (`randomBytes` for the symmetric key and IV,
`generatePrivateKey` for the ephemeral key — which resamples until the key
is not all-zero) is passed explicitly as `Entropy`; `Date.now()` is the
explicit `now` argument. -/

structure Entropy where
  symmetricKey : Bytes
  iv : Bytes
  ephemeralPrivateKey : Bytes

inductive DecryptError
  | badHex
  | badPrivateKeyLength
  | macMismatch
  | gcmAuthFailed
  | parseFailed
deriving DecidableEq

/-- `normalizePublicKey`: `fromHex(ensureHexPrefix(hex))` never throws
because the prefix is ensured first. -/
def normalizePublicKey (hex : String) : Bytes :=
  (fromHex (ensureHexPrefixed hex)).getD []

/-- `normalizePrivateKey`: after prefix-ensured hex decode, the key must be
exactly 32 bytes. -/
def normalizePrivateKey (hex : String) : Except DecryptError Bytes :=
  let buff := (fromHex (ensureHexPrefixed hex)).getD []
  if buff.length = 32 then .ok buff else .error .badPrivateKeyLength

/-- `computeSharedSecret`: `getSharedSecret(...).slice(1)` drops the format
byte. -/
def computeSharedSecret (P : Prims) (privateKey publicKey : Bytes) : Bytes :=
  (P.getSharedSecret privateKey publicKey).drop 1

/-- `wrapSymmetricKey` (the ephemeral private key comes from `Entropy`). -/
def wrapSymmetricKey (P : Prims) (key : Bytes) (recipientPublicKey : Bytes)
    (ephemeralPrivateKey : Bytes) : Bytes × Bytes × Bytes :=
  let ephemeralPublicKey := P.getPublicKey ephemeralPrivateKey
  let sharedSecret := computeSharedSecret P ephemeralPrivateKey recipientPublicKey
  let maskKey := P.hkdfSha256 sharedSecret "basemailer-mask" 32
  let macKey := P.hkdfSha256 sharedSecret "basemailer-mac" 32
  let encryptedKey := xorMask key maskKey
  let mac := P.hmacSha256 macKey encryptedKey
  (encryptedKey, mac, ephemeralPublicKey)

/-- `EncryptionManager.encrypt`. -/
def encrypt (P : Prims) (version : String) (content : MailContent)
    (recipientPublicKeyHex : String) (ent : Entropy) (now : Nat) :
    EncryptedMailPackage :=
  let timestamp := content.timestamp.getD now
  let canonical := { content with timestamp := some timestamp }
  let plaintext := P.serialize canonical
  let enc := P.gcmEncrypt ent.symmetricKey ent.iv plaintext
  let recipientPublicKey := normalizePublicKey recipientPublicKeyHex
  let wrapped := wrapSymmetricKey P ent.symmetricKey recipientPublicKey ent.ephemeralPrivateKey
  { version := version
    encryptedContent :=
      { algorithm := "AES-256-GCM"
        ciphertext := toHex enc.1
        iv := toHex ent.iv
        authTag := toHex enc.2 }
    encryptedKey :=
      { algorithm := "ECIES-secp256k1"
        ephemeralPublicKey := toHex wrapped.2.2
        ciphertext := toHex wrapped.1
        mac := toHex wrapped.2.1 }
    metadata :=
      { version := version
        timestamp := timestamp
        size := enc.1.length + wrapped.1.length
        contentType := "mail" } }

/-- `EncryptionManager.unwrapSymmetricKey`: recompute the shared secret and
both derived keys, verify the wrap-MAC, then XOR-unwrap. -/
def unwrapSymmetricKey (P : Prims) (pkg : EncryptedMailPackage)
    (recipientPrivateKeyHex : String) : Except DecryptError Bytes := do
  let ephemeralPublicKey := normalizePublicKey pkg.encryptedKey.ephemeralPublicKey
  let recipientPrivateKey ← normalizePrivateKey recipientPrivateKeyHex
  let sharedSecret := computeSharedSecret P recipientPrivateKey ephemeralPublicKey
  let maskKey := P.hkdfSha256 sharedSecret "basemailer-mask" 32
  let macKey := P.hkdfSha256 sharedSecret "basemailer-mac" 32
  let encryptedKey ← match fromHex pkg.encryptedKey.ciphertext with
    | some b => .ok b
    | none => .error .badHex
  let expectedMac := P.hmacSha256 macKey encryptedKey
  let providedMac ← match fromHex pkg.encryptedKey.mac with
    | some b => .ok b
    | none => .error .badHex
  if expectedMac = providedMac then
    .ok (xorMask encryptedKey maskKey)
  else
    .error .macMismatch

/-- `EncryptionManager.decrypt`. -/
def decrypt (P : Prims) (pkg : EncryptedMailPackage)
    (recipientPrivateKeyHex : String) : Except DecryptError MailContent := do
  let symmetricKey ← unwrapSymmetricKey P pkg recipientPrivateKeyHex
  let iv ← match fromHex pkg.encryptedContent.iv with
    | some b => .ok b
    | none => .error .badHex
  let ciphertext ← match fromHex pkg.encryptedContent.ciphertext with
    | some b => .ok b
    | none => .error .badHex
  let authTag ← match fromHex pkg.encryptedContent.authTag with
    | some b => .ok b
    | none => .error .badHex
  let decrypted ← match P.gcmDecrypt symmetricKey iv ciphertext authTag with
    | some b => .ok b
    | none => .error .gcmAuthFailed
  match P.deserialize decrypted with
  | some c => .ok c
  | none => .error .parseFailed

theorem exceptBindOk {ε α β : Type} (a : α) (f : α → Except ε β) :
    (Except.ok a : Except ε α) >>= f = f a := rfl

/-- Round trip of the hybrid engine: decrypting (with the matching private
key) a package produced by `encrypt` recovers the canonicalized content.
Entropy side conditions mirror `randomBytes(32)`, `randomBytes(12)` and
`generatePrivateKey` (the resampling loop plus secp256k1 validity of the
sampled scalar). -/
theorem decrypt_encrypt (P : Prims) (hP : PrimsSound P) (version : String)
    (c : MailContent) (priv : Bytes) (ent : Entropy) (now : Nat)
    (hpl : priv.length = 32) (hpv : ValidBytes priv) (hvp : P.validPriv priv)
    (hkl : ent.symmetricKey.length = 32) (hkv : ValidBytes ent.symmetricKey)
    (hivl : ent.iv.length = 12) (hivv : ValidBytes ent.iv)
    (heph : P.validPriv ent.ephemeralPrivateKey) :
    decrypt P (encrypt P version c (toHex (P.getPublicKey priv)) ent now) (toHex priv)
      = .ok { c with timestamp := some (c.timestamp.getD now) } := by
  have hpub : normalizePublicKey (toHex (P.getPublicKey priv)) = P.getPublicKey priv := by
    rw [normalizePublicKey, ensureHexPrefixed_toHex, fromHex_toHex (hP.pub_valid priv)]
    rfl
  have hephpub : normalizePublicKey (toHex (P.getPublicKey ent.ephemeralPrivateKey))
      = P.getPublicKey ent.ephemeralPrivateKey := by
    rw [normalizePublicKey, ensureHexPrefixed_toHex, fromHex_toHex (hP.pub_valid _)]
    rfl
  have hprivN : normalizePrivateKey (toHex priv) = .ok priv := by
    rw [normalizePrivateKey, ensureHexPrefixed_toHex, fromHex_toHex hpv]
    simp [hpl]
  have hss : computeSharedSecret P priv (P.getPublicKey ent.ephemeralPrivateKey)
      = computeSharedSecret P ent.ephemeralPrivateKey (P.getPublicKey priv) := by
    rw [computeSharedSecret, computeSharedSecret,
      hP.ecdh_symm priv ent.ephemeralPrivateKey hvp heph]
  set canonical : MailContent := { c with timestamp := some (c.timestamp.getD now) }
    with hcanonical
  set shared := computeSharedSecret P ent.ephemeralPrivateKey (P.getPublicKey priv)
    with hshared
  set maskKey := P.hkdfSha256 shared "basemailer-mask" 32 with hmaskKey
  set macKey := P.hkdfSha256 shared "basemailer-mac" 32 with hmacKey
  set wrapped := xorMask ent.symmetricKey maskKey with hwrapped
  set enc := P.gcmEncrypt ent.symmetricKey ent.iv (P.serialize canonical) with henc
  have hmaskv : ValidBytes maskKey := hP.hkdf_valid _ _ _
  have hwrapv : ValidBytes wrapped := xorMask_valid hkv hmaskv
  have hctv : ValidBytes enc.1 :=
    (hP.gcm_valid _ _ _ hkv hivv (hP.serialize_valid canonical)).1
  have htagv : ValidBytes enc.2 :=
    (hP.gcm_valid _ _ _ hkv hivv (hP.serialize_valid canonical)).2
  have hunwrap :
      unwrapSymmetricKey P (encrypt P version c (toHex (P.getPublicKey priv)) ent now)
        (toHex priv) = .ok ent.symmetricKey := by
    rw [unwrapSymmetricKey]
    simp only [encrypt, wrapSymmetricKey, hpub, hephpub]
    rw [hprivN]
    simp only [exceptBindOk, hss, ← hshared, ← hmaskKey, ← hmacKey, ← hwrapped,
      fromHex_toHex hwrapv, fromHex_toHex (hP.hmac_valid macKey wrapped)]
    simp only [↓reduceIte, Except.ok.injEq]
    rw [hwrapped, xorMask_xorMask]
  rw [decrypt, hunwrap]
  simp only [encrypt, hpub, ← hcanonical, ← henc, exceptBindOk,
    fromHex_toHex hivv, fromHex_toHex hctv, fromHex_toHex htagv]
  rw [hP.gcm_roundtrip ent.symmetricKey ent.iv (P.serialize canonical) hkl hivl]
  simp [hP.deserialize_serialize canonical]

/-! ### A concrete primitive instance

To evaluate the theorems on concrete inputs we instantiate `Prims` with
small executable stand-ins satisfying `PrimsSound`: a self-delimiting
byte codec for serialization, an identity-with-checked-tag GCM, a
sum-symmetric ECDH, and sum-based HKDF/HMAC. -/

/-- Self-delimiting unary encoding of a natural. -/
def encNat (n : Nat) : Bytes := List.replicate n 1 ++ [0]

def decNat : Bytes → Option (Nat × Bytes)
  | 0 :: rest => some (0, rest)
  | 1 :: rest => (decNat rest).map fun p => (p.1 + 1, p.2)
  | _ => none

theorem decNat_encNat (n : Nat) (r : Bytes) : decNat (encNat n ++ r) = some (n, r) := by
  induction n with
  | zero => rfl
  | succ m ih =>
    show decNat (1 :: (encNat m ++ r)) = some (m + 1, r)
    rw [decNat, ih]
    rfl

theorem validBytes_encNat (n : Nat) : ValidBytes (encNat n) :=
  validBytes_append (validBytes_replicate (by omega)) (validBytes_cons (by omega) validBytes_nil)

def encChar (c : Char) : Bytes := encNat c.toNat

def decChar (l : Bytes) : Option (Char × Bytes) :=
  (decNat l).map fun p => (Char.ofNat p.1, p.2)

theorem decChar_encChar (c : Char) (r : Bytes) : decChar (encChar c ++ r) = some (c, r) := by
  rw [decChar, encChar, decNat_encNat]
  simp [Char.ofNat_toNat]

def encListWith (enc : α → Bytes) (l : List α) : Bytes :=
  encNat l.length ++ l.foldr (fun a acc => enc a ++ acc) []

def decListWithN (dec : Bytes → Option (α × Bytes)) : Nat → Bytes → Option (List α × Bytes)
  | 0, l => some ([], l)
  | n + 1, l => (dec l).bind fun p =>
      (decListWithN dec n p.2).map fun q => (p.1 :: q.1, q.2)

def decListWith (dec : Bytes → Option (α × Bytes)) (l : Bytes) : Option (List α × Bytes) :=
  (decNat l).bind fun p => decListWithN dec p.1 p.2

theorem decListWithN_enc {enc : α → Bytes} {dec : Bytes → Option (α × Bytes)}
    (h : ∀ a r, dec (enc a ++ r) = some (a, r)) (xs : List α) (r : Bytes) :
    decListWithN dec xs.length (xs.foldr (fun a acc => enc a ++ acc) [] ++ r)
      = some (xs, r) := by
  induction xs with
  | nil => rfl
  | cons x rest ih =>
    show decListWithN dec (rest.length + 1)
      ((enc x ++ rest.foldr (fun a acc => enc a ++ acc) []) ++ r) = some (x :: rest, r)
    rw [decListWithN, List.append_assoc, h x _]
    simp [Option.bind, ih]

theorem decListWith_encListWith {enc : α → Bytes} {dec : Bytes → Option (α × Bytes)}
    (h : ∀ a r, dec (enc a ++ r) = some (a, r)) (xs : List α) (r : Bytes) :
    decListWith dec (encListWith enc xs ++ r) = some (xs, r) := by
  rw [encListWith, decListWith, List.append_assoc, decNat_encNat]
  simpa using decListWithN_enc h xs r

theorem validBytes_encListWith {enc : α → Bytes} (h : ∀ a, ValidBytes (enc a)) (xs : List α) :
    ValidBytes (encListWith enc xs) := by
  refine validBytes_append (validBytes_encNat _) ?_
  induction xs with
  | nil => exact validBytes_nil
  | cons x rest ih => exact validBytes_append (h x) ih

def encStr (s : String) : Bytes := encListWith encChar s.data

def decStr (l : Bytes) : Option (String × Bytes) :=
  (decListWith decChar l).map fun p => (String.mk p.1, p.2)

theorem decStr_encStr (s : String) (r : Bytes) : decStr (encStr s ++ r) = some (s, r) := by
  rw [decStr, encStr, decListWith_encListWith decChar_encChar]
  rfl

theorem validBytes_encChar (c : Char) : ValidBytes (encChar c) := validBytes_encNat c.toNat

theorem validBytes_encStr (s : String) : ValidBytes (encStr s) :=
  validBytes_encListWith validBytes_encChar s.data

def encOptionWith (enc : α → Bytes) : Option α → Bytes
  | none => encNat 0
  | some a => encNat 1 ++ enc a

def decOptionWith (dec : Bytes → Option (α × Bytes)) (l : Bytes) : Option (Option α × Bytes) :=
  (decNat l).bind fun p =>
    match p.1 with
    | 0 => some (none, p.2)
    | 1 => (dec p.2).map fun q => (some q.1, q.2)
    | _ => none

theorem decOptionWith_encOptionWith {enc : α → Bytes} {dec : Bytes → Option (α × Bytes)}
    (h : ∀ a r, dec (enc a ++ r) = some (a, r)) (o : Option α) (r : Bytes) :
    decOptionWith dec (encOptionWith enc o ++ r) = some (o, r) := by
  cases o with
  | none =>
    rw [encOptionWith, decOptionWith, decNat_encNat]
    rfl
  | some a =>
    rw [encOptionWith, decOptionWith, List.append_assoc, decNat_encNat]
    simp [h a r]

theorem validBytes_encOptionWith {enc : α → Bytes} (h : ∀ a, ValidBytes (enc a)) (o : Option α) :
    ValidBytes (encOptionWith enc o) := by
  cases o with
  | none => exact validBytes_encNat 0
  | some a => exact validBytes_append (validBytes_encNat 1) (h a)

def encAttachment (a : AttachmentMeta) : Bytes :=
  encStr a.name ++ encStr a.mimeType ++ encNat a.size ++ encOptionWith encStr a.cid

def decAttachment (l : Bytes) : Option (AttachmentMeta × Bytes) :=
  (decStr l).bind fun p1 =>
    (decStr p1.2).bind fun p2 =>
      (decNat p2.2).bind fun p3 =>
        (decOptionWith decStr p3.2).map fun p4 =>
          ({ name := p1.1, mimeType := p2.1, size := p3.1, cid := p4.1 }, p4.2)

theorem decAttachment_encAttachment (a : AttachmentMeta) (r : Bytes) :
    decAttachment (encAttachment a ++ r) = some (a, r) := by
  obtain ⟨n, m, sz, cid⟩ := a
  rw [encAttachment, decAttachment]
  simp only [List.append_assoc]
  simp [decStr_encStr, decNat_encNat, decOptionWith_encOptionWith decStr_encStr]

theorem validBytes_encAttachment (a : AttachmentMeta) : ValidBytes (encAttachment a) :=
  validBytes_append (validBytes_append (validBytes_append (validBytes_encStr _)
    (validBytes_encStr _)) (validBytes_encNat _)) (validBytes_encOptionWith validBytes_encStr _)

def encMail (c : MailContent) : Bytes :=
  encStr c.from_ ++ encStr c.to_ ++ encStr c.subject ++ encStr c.body ++
    encOptionWith encNat c.timestamp ++ encOptionWith (encListWith encAttachment) c.attachments

def decMail (l : Bytes) : Option (MailContent × Bytes) :=
  (decStr l).bind fun p1 =>
    (decStr p1.2).bind fun p2 =>
      (decStr p2.2).bind fun p3 =>
        (decStr p3.2).bind fun p4 =>
          (decOptionWith decNat p4.2).bind fun p5 =>
            (decOptionWith (decListWith decAttachment) p5.2).map fun p6 =>
              ({ from_ := p1.1, to_ := p2.1, subject := p3.1, body := p4.1,
                 timestamp := p5.1, attachments := p6.1 }, p6.2)

theorem decMail_encMail (c : MailContent) (r : Bytes) :
    decMail (encMail c ++ r) = some (c, r) := by
  obtain ⟨f, t, s, b, ts, at_⟩ := c
  rw [encMail, decMail]
  simp only [List.append_assoc]
  simp [decStr_encStr, decOptionWith_encOptionWith decNat_encNat,
    decOptionWith_encOptionWith (decListWith_encListWith decAttachment_encAttachment)]

theorem validBytes_encMail (c : MailContent) : ValidBytes (encMail c) := by
  rw [encMail]
  refine validBytes_append (validBytes_append (validBytes_append (validBytes_append
    (validBytes_append (validBytes_encStr _) (validBytes_encStr _)) (validBytes_encStr _))
    (validBytes_encStr _)) (validBytes_encOptionWith validBytes_encNat _)) ?_
  exact validBytes_encOptionWith (validBytes_encListWith validBytes_encAttachment) _

/-- Concrete executable primitive instance used to evaluate the theorems. -/
def modelPrims : Prims where
  serialize := encMail
  deserialize := fun l => (decMail l).bind fun p => if p.2 = [] then some p.1 else none
  gcmEncrypt := fun k iv pt => (pt, k ++ iv)
  gcmDecrypt := fun k iv ct tag => if tag = k ++ iv then some ct else none
  getPublicKey := fun sk => 4 :: sk.map (· % 256)
  getSharedSecret := fun sk pk => [4, ((sk.map (· % 256)).sum + (pk.drop 1).sum) % 256]
  hkdfSha256 := fun s info n =>
    List.replicate n ((s.sum + (info.data.map Char.toNat).sum) % 256)
  hmacSha256 := fun k m => [(k.sum + 2 * m.sum + 1) % 256]
  validPriv := fun _ => True

theorem modelPrims_sound : PrimsSound modelPrims where
  serialize_valid := validBytes_encMail
  deserialize_serialize := by
    intro c
    show (decMail (encMail c)).bind _ = some c
    rw [← List.append_nil (encMail c), decMail_encMail]
    rfl
  gcm_roundtrip := by intro k iv pt _ _; simp [modelPrims]
  gcm_valid := by
    intro k iv pt hk hiv hpt
    exact ⟨hpt, validBytes_append hk hiv⟩
  pub_valid := by
    intro sk
    refine validBytes_cons (by omega) ?_
    intro b hb
    rcases List.mem_map.mp hb with ⟨a, _, rfl⟩
    omega
  ecdh_symm := by
    intro a b _ _
    show [4, ((a.map (· % 256)).sum + ((4 :: b.map (· % 256)).drop 1).sum) % 256]
      = [4, ((b.map (· % 256)).sum + ((4 :: a.map (· % 256)).drop 1).sum) % 256]
    simp only [List.drop_succ_cons, List.drop_zero]
    rw [Nat.add_comm]
  hkdf_length := by intro s info n; simp [modelPrims]
  hkdf_valid := by
    intro s info n
    exact validBytes_replicate (Nat.mod_lt _ (by omega))
  hmac_valid := by
    intro k m
    exact validBytes_cons (Nat.mod_lt _ (by omega)) validBytes_nil

/-- C1: for every mail content whose timestamp is present and every valid
recipient keypair, `decrypt (encrypt content pub) priv` returns the original
content.  The keypair is `(priv, getPublicKey priv)`; the explicit entropy
side conditions mirror `randomBytes(32)`, `randomBytes(12)` and the
non-degenerate ephemeral key from `generatePrivateKey`. -/
theorem C1_encrypt_decrypt_roundtrip (P : Prims) (hP : PrimsSound P) (version : String)
    (c : MailContent) (t : Nat) (hts : c.timestamp = some t)
    (priv : Bytes) (hpl : priv.length = 32) (hpv : ValidBytes priv) (hvp : P.validPriv priv)
    (ent : Entropy) (hkl : ent.symmetricKey.length = 32) (hkv : ValidBytes ent.symmetricKey)
    (hivl : ent.iv.length = 12) (hivv : ValidBytes ent.iv)
    (heph : P.validPriv ent.ephemeralPrivateKey) (now : Nat) :
    decrypt P (encrypt P version c (toHex (P.getPublicKey priv)) ent now) (toHex priv)
      = Except.ok c := by
  rw [decrypt_encrypt P hP version c priv ent now hpl hpv hvp hkl hkv hivl hivv heph]
  obtain ⟨f, t', s, b, ts, at_⟩ := c
  simp only [MailContent.timestamp] at hts
  simp [hts]

/-- Concrete mail content used by the evaluation witnesses. -/
def cW : MailContent :=
  { from_ := "a@x", to_ := "b@x", subject := "hi", body := "yo",
    timestamp := some 1, attachments := none }

/-- Concrete recipient private key (32 bytes of 1, as in the SDK test). -/
def privW : Bytes := List.replicate 32 1

/-- Concrete call entropy for the evaluation witnesses. -/
def entW : Entropy :=
  { symmetricKey := List.replicate 32 2, iv := List.replicate 12 3,
    ephemeralPrivateKey := List.replicate 32 5 }

theorem C1_encrypt_decrypt_roundtrip_witness :
    decrypt modelPrims
        (encrypt modelPrims "1.0" cW (toHex (modelPrims.getPublicKey privW)) entW 7)
        (toHex privW) = Except.ok cW :=
  C1_encrypt_decrypt_roundtrip modelPrims modelPrims_sound "1.0" cW 1 rfl
    privW (by decide) (by decide) trivial
    entW (by decide) (by decide) (by decide) (by decide) trivial 7

/-- The mac key `unwrapSymmetricKey` recomputes for a package and a decoded
recipient private key. -/
def recomputedMacKey (P : Prims) (pkg : EncryptedMailPackage)
    (recipientPrivateKey : Bytes) : Bytes :=
  P.hkdfSha256
    (computeSharedSecret P recipientPrivateKey
      (normalizePublicKey pkg.encryptedKey.ephemeralPublicKey))
    "basemailer-mac" 32

/-- C2: `decrypt` verifies the wrap-MAC before unwrapping.  First conjunct:
while unwrapping, once the package's key material decodes, a recomputed
HMAC that differs from the package's `mac` field makes `unwrapSymmetricKey`
fail with the integrity error.  Second conjunct: any unwrap failure is the
result of `decrypt` for EVERY body (`encryptedContent`) whatsoever — the
AES-GCM decryption of the body is never attempted and no partial plaintext
is ever returned.  (The constant-time clause of the claim is a timing
property with no counterpart in a functional embedding.) -/
theorem C2_mac_verified_before_unwrap (P : Prims) (pkg : EncryptedMailPackage)
    (privHex : String) :
    (∀ pk ek pm, normalizePrivateKey privHex = .ok pk →
      fromHex pkg.encryptedKey.ciphertext = some ek →
      fromHex pkg.encryptedKey.mac = some pm →
      P.hmacSha256 (recomputedMacKey P pkg pk) ek ≠ pm →
      unwrapSymmetricKey P pkg privHex = .error .macMismatch)
    ∧ (∀ e, unwrapSymmetricKey P pkg privHex = .error e →
        ∀ ec, decrypt P { pkg with encryptedContent := ec } privHex = .error e) := by
  constructor
  · intro pk ek pm hpk hek hpm hne
    rw [unwrapSymmetricKey, hpk]
    simp only [exceptBindOk, hek, hpm, recomputedMacKey] at hne ⊢
    simp [hne]
  · intro e he ec
    have hsame : unwrapSymmetricKey P { pkg with encryptedContent := ec } privHex
        = unwrapSymmetricKey P pkg privHex := rfl
    rw [decrypt, hsame, he]
    rfl

/-- Concrete package with a tampered wrap-MAC (all other fields well-formed)
used to evaluate the C2 theorem. -/
def pkgTamperedMac : EncryptedMailPackage :=
  let pkg := encrypt modelPrims "1.0" cW (toHex (modelPrims.getPublicKey privW)) entW 7
  { pkg with encryptedKey := { pkg.encryptedKey with mac := toHex [9] } }

theorem C2_mac_verified_before_unwrap_witness :
    unwrapSymmetricKey modelPrims pkgTamperedMac (toHex privW) = .error .macMismatch
    ∧ decrypt modelPrims pkgTamperedMac (toHex privW) = .error .macMismatch := by
  have h := C2_mac_verified_before_unwrap modelPrims pkgTamperedMac (toHex privW)
  have hun : unwrapSymmetricKey modelPrims pkgTamperedMac (toHex privW)
      = .error .macMismatch :=
    h.1 privW (fromHex pkgTamperedMac.encryptedKey.ciphertext).toList.flatten
      [9] (by rfl) (by rfl) (by rfl) (by decide)
  refine ⟨hun, ?_⟩
  have hd := h.2 .macMismatch hun pkgTamperedMac.encryptedContent
  exact hd

/-- C3 (amended): `decrypt` never inspects the envelope's `version` field —
its behaviour is identical for every version string; no
`UnsupportedVersionError` path exists in the engine. -/
theorem C3_decrypt_ignores_version (P : Prims) (pkg : EncryptedMailPackage)
    (privHex : String) (v : String) :
    decrypt P { pkg with version := v } privHex = decrypt P pkg privHex := rfl

/-- Concrete package carrying an unrecognized version string. -/
def pkgUnknownVersion : EncryptedMailPackage :=
  encrypt modelPrims "v99-unrecognized" cW (toHex (modelPrims.getPublicKey privW)) entW 7

/-- C3 counterexample: a package whose version is not a version the engine
recognizes ("v99-unrecognized"; the engine's only version default is "1.0")
decrypts successfully, instead of failing with an unsupported-version
error before parsing. -/
theorem C3_counterexample_version_not_checked :
    pkgUnknownVersion.version = "v99-unrecognized"
    ∧ decrypt modelPrims pkgUnknownVersion (toHex privW) = Except.ok cW := by
  constructor
  · rfl
  · have h := decrypt_encrypt modelPrims modelPrims_sound "v99-unrecognized" cW privW entW 7
      (by decide) (by decide) trivial (by decide) (by decide) (by decide) (by decide) trivial
    simpa [cW] using h

/-! ### Commitment mapper (`cidToBytes32`, `src/sdk/src/utils/bytes.ts`)

`cidToBytes32(cid) = keccak256(toUtf8Bytes(cid))`; ethers' `keccak256`
returns the digest as a `0x` hex string, modelled as `toHex` of the raw
32-byte digest.  `keccak` itself is the external primitive. -/

/-- UTF-8 encoding of one unicode scalar value. -/
def utf8EncodeCharNat (n : Nat) : List Nat :=
  if n < 128 then [n]
  else if n < 2048 then [192 ||| (n >>> 6), 128 ||| (n &&& 63)]
  else if n < 65536 then [224 ||| (n >>> 12), 128 ||| ((n >>> 6) &&& 63), 128 ||| (n &&& 63)]
  else [240 ||| (n >>> 18), 128 ||| ((n >>> 12) &&& 63), 128 ||| ((n >>> 6) &&& 63),
    128 ||| (n &&& 63)]

/-- UTF-8 bytes of a string (`toUtf8Bytes`). -/
def utf8Bytes (s : String) : Bytes := s.data.flatMap (fun c => utf8EncodeCharNat c.toNat)

/-- `cidToBytes32`, parameterized by the keccak-256 primitive. -/
def cidToBytes32 (keccak : Bytes → Bytes) (cid : String) : String :=
  toHex (keccak (utf8Bytes cid))

/-- C6: the handle-to-commitment mapping is the pure function
`keccak-256 ∘ UTF-8`: for any keccak with the documented 32-byte output,
the commitment hex-decodes to exactly the 32-byte digest of the handle's
UTF-8 bytes, and the commitment depends on nothing but the handle (equal
handles — even merely equal as UTF-8 byte strings — give equal
commitments). -/
theorem C6_commitment_pure_keccak_of_handle (keccak : Bytes → Bytes)
    (hlen : ∀ bs, (keccak bs).length = 32) (hval : ∀ bs, ValidBytes (keccak bs))
    (h : String) :
    fromHex (cidToBytes32 keccak h) = some (keccak (utf8Bytes h))
    ∧ (keccak (utf8Bytes h)).length = 32
    ∧ ∀ h2, utf8Bytes h = utf8Bytes h2 → cidToBytes32 keccak h = cidToBytes32 keccak h2 := by
  refine ⟨fromHex_toHex (hval _), hlen _, ?_⟩
  intro h2 hb
  rw [cidToBytes32, cidToBytes32, hb]

/-- Toy 32-byte keccak stand-in for evaluating the C6 theorem. -/
def keccakModel (bs : Bytes) : Bytes := List.replicate 32 (bs.sum % 256)

theorem C6_commitment_pure_keccak_of_handle_witness :
    fromHex (cidToBytes32 keccakModel "QmTestHandle") = some (keccakModel (utf8Bytes "QmTestHandle"))
    ∧ (keccakModel (utf8Bytes "QmTestHandle")).length = 32
    ∧ ∀ h2, utf8Bytes "QmTestHandle" = utf8Bytes h2 →
        cidToBytes32 keccakModel "QmTestHandle" = cidToBytes32 keccakModel h2 :=
  C6_commitment_pure_keccak_of_handle keccakModel
    (fun bs => List.length_replicate 32 _)
    (fun bs => validBytes_replicate (Nat.mod_lt _ (by omega)))
    "QmTestHandle"

/-! ### Ingestion protocol (`EmailService.persistEvent`, `InMemoryMailStore`,
`InMemoryCidStore`)

The local index is a JS `Map` keyed by mail id (`InMemoryMailStore.save`
does `mails.set(mail.mailId, mail)`); `Map.set` replaces in place when the
key exists and appends otherwise.  `persistEvent` drops events whose mail
id or contentCID is JS-falsy (`undefined` or the empty string), resolves
the commitment through the cid store with the commitment itself as
fallback, and saves the record. -/

structure StoredMail where
  mailId : String
  cid : String
  contentHash : String
  senderEmail : String
  recipientEmail : String
  timestamp : Nat
  blockNumber : Option Nat
  txHash : Option String
deriving DecidableEq

/-- JS `Map.set`: replace in place if present, else append. -/
def mapSet (k : String) (v : α) : List (String × α) → List (String × α)
  | [] => [(k, v)]
  | (k', v') :: rest => if k' = k then (k, v) :: rest else (k', v') :: mapSet k v rest

/-- JS `Map.get`. -/
def mapGet (k : String) : List (String × α) → Option α
  | [] => none
  | (k', v') :: rest => if k' = k then some v' else mapGet k rest

/-- Combined service state: the cid store and the mail store. -/
structure ServiceState where
  cids : List (String × String)
  mails : List (String × StoredMail)
deriving DecidableEq

/-- JS falsiness of an optional string (`!x`): undefined or empty. -/
def jsFalsy : Option String → Bool
  | none => true
  | some s => s = ""

/-- `EmailService.persistEvent`. -/
def persistEvent (st : ServiceState) (mailId contentCID : Option String)
    (senderEmail recipientEmail : String) (timestamp : Nat)
    (blockNumber : Option Nat) (txHash : Option String) : ServiceState :=
  if jsFalsy mailId || jsFalsy contentCID then st
  else
    let mid := mailId.getD ""
    let ccid := contentCID.getD ""
    let cid := (mapGet ccid st.cids).getD ccid
    let record : StoredMail :=
      { mailId := mid, cid := cid, contentHash := ccid,
        senderEmail := senderEmail, recipientEmail := recipientEmail,
        timestamp := timestamp, blockNumber := blockNumber, txHash := txHash }
    { st with mails := mapSet mid record st.mails }

theorem mapSet_mapSet (k : String) (v : α) (m : List (String × α)) :
    mapSet k v (mapSet k v m) = mapSet k v m := by
  induction m with
  | nil => simp [mapSet]
  | cons p rest ih =>
    obtain ⟨k', v'⟩ := p
    by_cases h : k' = k
    · simp [mapSet, h]
    · simp [mapSet, h, ih]

/-- C8: ingestion upserts are idempotent — applying the same decoded ledger
event twice in succession to any index state produces the same final state
as applying it once, so an event delivered by both catch-up and the live
subscription yields exactly one record. -/
theorem C8_persistEvent_idempotent (st : ServiceState) (mailId contentCID : Option String)
    (senderEmail recipientEmail : String) (timestamp : Nat)
    (blockNumber : Option Nat) (txHash : Option String) :
    persistEvent (persistEvent st mailId contentCID senderEmail recipientEmail
        timestamp blockNumber txHash)
      mailId contentCID senderEmail recipientEmail timestamp blockNumber txHash
    = persistEvent st mailId contentCID senderEmail recipientEmail
        timestamp blockNumber txHash := by
  by_cases hdrop : (jsFalsy mailId || jsFalsy contentCID) = true
  · simp [persistEvent, hdrop]
  · simp [persistEvent, hdrop, mapSet_mapSet]

/-- C9: an event whose mail id or contentCID is missing is dropped — the
index state is unchanged. -/
theorem C9_persistEvent_drops_partial (st : ServiceState)
    (mailId contentCID : Option String) (senderEmail recipientEmail : String)
    (timestamp : Nat) (blockNumber : Option Nat) (txHash : Option String)
    (h : mailId = none ∨ contentCID = none) :
    persistEvent st mailId contentCID senderEmail recipientEmail timestamp
      blockNumber txHash = st := by
  rcases h with h | h <;> subst h <;>
    simp [persistEvent, jsFalsy]

theorem C9_persistEvent_drops_partial_witness :
    persistEvent { cids := [], mails := [] } none (some "0xc1d") "a@x" "b@x" 5 none none
      = { cids := [], mails := [] } :=
  C9_persistEvent_drops_partial { cids := [], mails := [] } none (some "0xc1d")
    "a@x" "b@x" 5 none none (Or.inl rfl)

/-! ### Dispatch protocol (`BaseMailerClient.sendMail`)

The client's external collaborators (registry contract, caller-supplied
recipient resolver, encryption engine, IPFS storage, cid store, proof
generator, mailer contract, JSON) are oracles in `ClientEnv`; each fallible
call returns `Except` (a JS throw is `error`).  `sendMail` returns the list
of external calls it performed, in order, together with its result, which
makes the sequencing of the source's `await` chain a provable property. -/

inductive Effect
  | resolveOwner (email : String)
  | resolverCall (email owner : String)
  | encryptStep (recipientPublicKey : String)
  | uploadStep
  | cidSet (key cid : String)
  | proveStep
  | submitStep (contentCID : String)
  | waitStep
  | verifyStep
  | pinStep (cid : String)
  | saveStep
deriving DecidableEq

structure RecipientResolution where
  email : String
  owner : String
  publicKey : String

structure TxInfo where
  hash : String
deriving DecidableEq

structure LogEntry where
  topics : List String
  data : String
deriving DecidableEq

structure ReceiptInfo where
  logs : List LogEntry
  blockNumber : Option Nat
deriving DecidableEq

structure ProofResult where
  proof : String
  publicSignals : List String

structure SendMailParams where
  from_ : String
  to_ : String
  subject : String
  body : String
  attachments : Option (List AttachmentMeta)

structure SendMailResponse where
  mailId : String
  cid : String
  txHash : String
deriving DecidableEq

/-- First receipt log whose first topic is the MailSent topic hash. -/
def findMailSentLog (topic : String) : List LogEntry → Option LogEntry
  | [] => none
  | log :: rest =>
    if log.topics.head? = some topic then some log else findMailSentLog topic rest

/-- `extractMailIdFromReceipt` / `extractMailId`: scan the receipt's logs
for the first MailSent event and decode its `mailId` argument; `none`
when there are no logs, no computable topic hash, no matching log, or the
matching log does not parse. -/
def extractMailId (mailSentTopic : Option String)
    (parseLogMailId : LogEntry → Option String) : Option (List LogEntry) → Option String
  | none => none
  | some logs =>
    match mailSentTopic with
    | none => none
    | some topic => (findMailSentLog topic logs).bind parseLogMailId

structure ClientEnv where
  /-- `registry.resolveEmail` (the on-chain owner lookup). -/
  resolveEmail : String → Except String String
  /-- The caller-supplied recipient resolver, when configured. -/
  recipientResolver : Option (String → String → Except String RecipientResolution)
  /-- `encryption.encrypt`. -/
  encryptPkg : MailContent → String → Except String EncryptedMailPackage
  /-- `storage.upload`. -/
  upload : EncryptedMailPackage → Except String String
  /-- `cidStore.set`. -/
  cidSet : String → String → Except String Unit
  /-- keccak-256 (used by `cidToBytes32` and the proof-input content hash). -/
  keccak : Bytes → Bytes
  /-- `JSON.stringify` of an encrypted package. -/
  stringifyPkg : EncryptedMailPackage → String
  /-- `proof.generateProof` over `(senderEmail, recipientEmail, contentHash)`. -/
  generateProof : String → String → String → Except String ProofResult
  /-- `mailer.sendMail(proof, contentCID, from, to)`. -/
  submit : String → String → String → String → Except String TxInfo
  /-- `tx.wait()`; the receipt may be null. -/
  wait : TxInfo → Except String (Option ReceiptInfo)
  /-- `mailer.interface.getEvent('MailSent')?.topicHash`. -/
  mailSentTopic : Option String
  /-- `mailer.interface.parseLog(...)?.args?.mailId?.toString()`. -/
  parseLogMailId : LogEntry → Option String
  /-- `Date.now()`. -/
  now : Nat

/-- `BaseMailerClient.sendMail`, with the trace of external calls made. -/
def sendMail (env : ClientEnv) (p : SendMailParams) :
    List Effect × Except String SendMailResponse :=
  if p.from_ = "" then ([], .error "from email is required")
  else
    match env.resolveEmail p.to_ with
    | .error e => ([.resolveOwner p.to_], .error e)
    | .ok owner =>
      match env.recipientResolver with
      | none => ([.resolveOwner p.to_],
          .error "recipientResolver is not configured; cannot derive public key")
      | some resolver =>
        match resolver p.to_ owner with
        | .error e => ([.resolveOwner p.to_, .resolverCall p.to_ owner], .error e)
        | .ok recipient =>
          let content : MailContent :=
            { from_ := p.from_, to_ := p.to_, subject := p.subject, body := p.body,
              attachments := p.attachments, timestamp := some env.now }
          match env.encryptPkg content recipient.publicKey with
          | .error e => ([.resolveOwner p.to_, .resolverCall p.to_ owner,
              .encryptStep recipient.publicKey], .error e)
          | .ok encrypted =>
            match env.upload encrypted with
            | .error e => ([.resolveOwner p.to_, .resolverCall p.to_ owner,
                .encryptStep recipient.publicKey, .uploadStep], .error e)
            | .ok cid =>
              let contentCID := cidToBytes32 env.keccak cid
              match env.cidSet contentCID cid with
              | .error e => ([.resolveOwner p.to_, .resolverCall p.to_ owner,
                  .encryptStep recipient.publicKey, .uploadStep,
                  .cidSet contentCID cid], .error e)
              | .ok _ =>
                let contentHash := toHex (env.keccak (utf8Bytes (env.stringifyPkg encrypted)))
                match env.generateProof p.from_ p.to_ contentHash with
                | .error e => ([.resolveOwner p.to_, .resolverCall p.to_ owner,
                    .encryptStep recipient.publicKey, .uploadStep,
                    .cidSet contentCID cid, .proveStep], .error e)
                | .ok prf =>
                  match env.submit prf.proof contentCID p.from_ p.to_ with
                  | .error e => ([.resolveOwner p.to_, .resolverCall p.to_ owner,
                      .encryptStep recipient.publicKey, .uploadStep,
                      .cidSet contentCID cid, .proveStep,
                      .submitStep contentCID], .error e)
                  | .ok tx =>
                    match env.wait tx with
                    | .error e => ([.resolveOwner p.to_, .resolverCall p.to_ owner,
                        .encryptStep recipient.publicKey, .uploadStep,
                        .cidSet contentCID cid, .proveStep,
                        .submitStep contentCID, .waitStep], .error e)
                    | .ok receipt =>
                      let mailId := extractMailId env.mailSentTopic env.parseLogMailId
                        (receipt.map (fun r => r.logs))
                      ([.resolveOwner p.to_, .resolverCall p.to_ owner,
                        .encryptStep recipient.publicKey, .uploadStep,
                        .cidSet contentCID cid, .proveStep,
                        .submitStep contentCID, .waitStep],
                       .ok { mailId := mailId.getD "0", cid := cid, txHash := tx.hash })

/-! ### Service send handler (`EmailService` POST `/api/send-mail`) -/

inductive SvcResponse
  | badRequest (msg : String)
  | serverError (msg : String)
  | success (mailId txHash : String) (timestamp : Nat)
deriving DecidableEq

structure SendMailRequest where
  proof : Option String
  cid : Option String
  senderEmail : Option String
  recipientEmail : Option String

structure ServiceEnv where
  /-- `registry.resolveEmail`. -/
  resolveEmail : String → Except String String
  /-- `cidStore.set`. -/
  cidSet : String → String → Except String Unit
  /-- keccak-256. -/
  keccak : Bytes → Bytes
  /-- The verification key, when `verificationKeyPath` was configured and
  loaded by `start()`. -/
  verificationKey : Option String
  /-- `decodeProof` (abi decoding of the packed proof; may throw). -/
  decodeProof : String → Except String (List (List String))
  /-- `snarkjs.groth16.verify`. -/
  groth16Verify : String → List String → List (List String) → Except String Bool
  /-- `BigInt(hexString).toString()`. -/
  bigIntStr : String → String
  /-- `ipfs.pin`. -/
  pin : String → Except String Unit
  /-- `mailer.sendMail`. -/
  submit : String → String → String → String → Except String TxInfo
  /-- `tx.wait()`. -/
  wait : TxInfo → Except String (Option ReceiptInfo)
  /-- `store.save`. -/
  saveRecord : StoredMail → Except String Unit
  mailSentTopic : Option String
  parseLogMailId : LogEntry → Option String
  now : Nat

/-- `EmailService.verifyProof` body for a loaded key: decode the packed
proof, assemble the three public signals positionally, and call the
verifier. -/
def verifyProofSvc (env : ServiceEnv) (key encodedProof owner senderEmail contentCID : String) :
    Except String Bool :=
  match env.decodeProof encodedProof with
  | .error e => .error e
  | .ok decoded =>
    let publicSignals := [env.bigIntStr owner, env.bigIntStr contentCID,
      env.bigIntStr (toHex (env.keccak (utf8Bytes senderEmail)))]
    env.groth16Verify key publicSignals decoded

def zeroAddress : String := "0x0000000000000000000000000000000000000000"

/-- Pin, submit, wait, extract the mail id (`?? '0'`), save and respond:
the tail of the handler after (any) proof verification. -/
def svcSubmitPhase (env : ServiceEnv) (prf cid senderEmail recipientEmail contentCID : String) :
    List Effect × SvcResponse :=
  match env.pin cid with
  | .error e => ([.pinStep cid], .serverError e)
  | .ok _ =>
    match env.submit prf contentCID senderEmail recipientEmail with
    | .error e => ([.pinStep cid, .submitStep contentCID], .serverError e)
    | .ok tx =>
      match env.wait tx with
      | .error e => ([.pinStep cid, .submitStep contentCID, .waitStep], .serverError e)
      | .ok receipt =>
        let mailId := (extractMailId env.mailSentTopic env.parseLogMailId
          (receipt.map (fun r => r.logs))).getD "0"
        let record : StoredMail :=
          { mailId := mailId, cid := cid, contentHash := contentCID,
            senderEmail := senderEmail, recipientEmail := recipientEmail,
            timestamp := env.now, blockNumber := receipt.bind (fun r => r.blockNumber),
            txHash := some tx.hash }
        match env.saveRecord record with
        | .error e => ([.pinStep cid, .submitStep contentCID, .waitStep, .saveStep],
            .serverError e)
        | .ok _ => ([.pinStep cid, .submitStep contentCID, .waitStep, .saveStep],
            .success mailId tx.hash env.now)

/-- The POST `/api/send-mail` handler (the route closure in
`registerRoutes`, whose catch-all maps any throw to a 500 response). -/
def handleSendMail (env : ServiceEnv) (req : SendMailRequest) :
    List Effect × SvcResponse :=
  if jsFalsy req.proof || jsFalsy req.cid || jsFalsy req.senderEmail
      || jsFalsy req.recipientEmail then
    ([], .badRequest "Missing required fields")
  else
    let prf := req.proof.getD ""
    let cid := req.cid.getD ""
    let senderEmail := req.senderEmail.getD ""
    let recipientEmail := req.recipientEmail.getD ""
    match env.resolveEmail senderEmail with
    | .error e => ([.resolveOwner senderEmail], .serverError e)
    | .ok owner =>
      if owner = zeroAddress then
        ([.resolveOwner senderEmail], .badRequest "Sender email not registered")
      else
        let contentCID := cidToBytes32 env.keccak cid
        match env.cidSet contentCID cid with
        | .error e => ([.resolveOwner senderEmail, .cidSet contentCID cid], .serverError e)
        | .ok _ =>
          match env.verificationKey with
          | some key =>
            match verifyProofSvc env key prf owner senderEmail contentCID with
            | .error e => ([.resolveOwner senderEmail, .cidSet contentCID cid,
                .verifyStep], .serverError e)
            | .ok false => ([.resolveOwner senderEmail, .cidSet contentCID cid,
                .verifyStep], .badRequest "Invalid proof")
            | .ok true =>
              let rest := svcSubmitPhase env prf cid senderEmail recipientEmail contentCID
              ([.resolveOwner senderEmail, .cidSet contentCID cid, .verifyStep] ++ rest.1,
               rest.2)
          | none =>
            let rest := svcSubmitPhase env prf cid senderEmail recipientEmail contentCID
            ([.resolveOwner senderEmail, .cidSet contentCID cid] ++ rest.1, rest.2)

/-- Scans a trace left to right and checks that every ledger submission is
preceded by a `cidStore.set` that recorded exactly the submitted
commitment. -/
def submitsCoveredBySet (known : List String) : List Effect → Bool
  | [] => true
  | .cidSet k _ :: rest => submitsCoveredBySet (k :: known) rest
  | .submitStep c :: rest => known.contains c && submitsCoveredBySet known rest
  | _ :: rest => submitsCoveredBySet known rest

/-- C7: in every execution of the client's `sendMail` and of the service's
send handler, the commitment computed from the storage handle is recorded
in the cid store strictly before the submission transaction is sent: no
trace reaches a `submit` without an earlier `cidStore.set` of that very
commitment. -/
theorem contains_of_mem {l : List String} {a : String} (h : a ∈ l) :
    l.contains a = true := by simpa using h

theorem C7_commitment_remembered_before_submit :
    (∀ (env : ClientEnv) (p : SendMailParams),
      submitsCoveredBySet [] (sendMail env p).1 = true)
    ∧ (∀ (env : ServiceEnv) (req : SendMailRequest),
      submitsCoveredBySet [] (handleSendMail env req).1 = true) := by
  have hsvc : ∀ (env : ServiceEnv) (prf cid se re ccid : String) (known : List String),
      ccid ∈ known → submitsCoveredBySet known (svcSubmitPhase env prf cid se re ccid).1 = true := by
    intro env prf cid se re ccid known hmem
    simp only [svcSubmitPhase]
    split
    · simp [submitsCoveredBySet]
    · split
      · simpa [submitsCoveredBySet] using hmem
      · split
        · simpa [submitsCoveredBySet] using hmem
        · split <;> simpa [submitsCoveredBySet] using hmem
  constructor
  · intro env p
    simp only [sendMail]
    split
    · rfl
    · split
      · rfl
      · split
        · rfl
        · split
          · rfl
          · split
            · rfl
            · split
              · rfl
              · split
                · simp [submitsCoveredBySet]
                · split
                  · simp [submitsCoveredBySet]
                  · split
                    · simp [submitsCoveredBySet]
                    · split <;> simp [submitsCoveredBySet]
  · intro env req
    simp only [handleSendMail]
    split
    · rfl
    · split
      · rfl
      · split
        · rfl
        · split
          · simp [submitsCoveredBySet]
          · split
            · split
              · simp [submitsCoveredBySet]
              · simp [submitsCoveredBySet]
              · simp only [submitsCoveredBySet, List.cons_append, List.nil_append]
                exact hsvc _ _ _ _ _ _ _ (List.mem_cons_self _ _)
            · simp only [submitsCoveredBySet, List.cons_append, List.nil_append]
              exact hsvc _ _ _ _ _ _ _ (List.mem_cons_self _ _)

/-- C4 (amended): a send whose steps all succeed reports success, returning
the storage handle and the transaction hash together with a mail id that is
the id decoded from the receipt's `MailSent` event when one is found, and
the constant `'0'` otherwise (the `mailId ?? '0'` fallback) — so success
can carry a mail id that was not read from the ledger. -/
theorem C4_sendMail_success_shape (env : ClientEnv) (p : SendMailParams)
    (resolver : String → String → Except String RecipientResolution)
    (owner : String) (recipient : RecipientResolution)
    (encrypted : EncryptedMailPackage) (cid : String) (prf : ProofResult)
    (tx : TxInfo) (receipt : Option ReceiptInfo)
    (hf : ¬p.from_ = "")
    (hre : env.resolveEmail p.to_ = .ok owner)
    (hrr : env.recipientResolver = some resolver)
    (hres : resolver p.to_ owner = .ok recipient)
    (henc : env.encryptPkg
      { from_ := p.from_, to_ := p.to_, subject := p.subject, body := p.body,
        timestamp := some env.now, attachments := p.attachments }
      recipient.publicKey = .ok encrypted)
    (hup : env.upload encrypted = .ok cid)
    (hset : env.cidSet (cidToBytes32 env.keccak cid) cid = .ok ())
    (hprf : env.generateProof p.from_ p.to_
      (toHex (env.keccak (utf8Bytes (env.stringifyPkg encrypted)))) = .ok prf)
    (hsub : env.submit prf.proof (cidToBytes32 env.keccak cid) p.from_ p.to_ = .ok tx)
    (hwait : env.wait tx = .ok receipt) :
    (sendMail env p).2 = .ok
      { mailId := (extractMailId env.mailSentTopic env.parseLogMailId
          (receipt.map (fun r => r.logs))).getD "0",
        cid := cid, txHash := tx.hash } := by
  simp only [sendMail, if_neg hf, hre, hrr, hres, henc, hup, hset, hprf, hsub, hwait]

/-- A fixed well-formed package literal used by oracle environments. -/
def pkgStub : EncryptedMailPackage :=
  { version := "1.0"
    encryptedContent :=
      { algorithm := "AES-256-GCM", ciphertext := "0x00", iv := "0x00", authTag := "0x00" }
    encryptedKey :=
      { algorithm := "ECIES-secp256k1", ephemeralPublicKey := "0x04",
        ciphertext := "0x00", mac := "0x00" }
    metadata := { version := "1.0", timestamp := 0, size := 0, contentType := "mail" } }

/-- Environment for the C4 counterexample and witness: every external call
succeeds, but the confirmed receipt contains no logs at all, hence no
`MailSent` event. -/
def env4 : ClientEnv :=
  { resolveEmail := fun _ => .ok "0xowner"
    recipientResolver := some (fun em ow => .ok { email := em, owner := ow, publicKey := "0xpub" })
    encryptPkg := fun _ _ => .ok pkgStub
    upload := fun _ => .ok "QmCid"
    cidSet := fun _ _ => .ok ()
    keccak := fun _ => []
    stringifyPkg := fun _ => "{}"
    generateProof := fun _ _ _ => .ok { proof := "0xproof", publicSignals := [] }
    submit := fun _ _ _ _ => .ok { hash := "0xtx" }
    wait := fun _ => .ok (some { logs := [], blockNumber := none })
    mailSentTopic := some "0xtopic"
    parseLogMailId := fun _ => none
    now := 7 }

def params4 : SendMailParams :=
  { from_ := "a@x", to_ := "b@x", subject := "hi", body := "yo", attachments := none }

/-- C4 counterexample: every step of this send succeeds and the receipt
carries no `MailSent` event (its log list is empty), yet `sendMail` reports
success — with the fabricated mail id `"0"`, which was not read from any
ledger event. -/
theorem C4_counterexample_success_with_unread_mailId :
    env4.wait { hash := "0xtx" } = .ok (some { logs := [], blockNumber := none })
    ∧ (sendMail env4 params4).2 = .ok { mailId := "0", cid := "QmCid", txHash := "0xtx" } :=
  ⟨rfl, rfl⟩

theorem C4_sendMail_success_shape_witness :
    (sendMail env4 params4).2 = .ok
      { mailId := (extractMailId env4.mailSentTopic env4.parseLogMailId
          ((some { logs := [], blockNumber := none } : Option ReceiptInfo).map
            (fun r => r.logs))).getD "0",
        cid := "QmCid", txHash := "0xtx" } :=
  C4_sendMail_success_shape env4 params4
    (fun em ow => .ok { email := em, owner := ow, publicKey := "0xpub" })
    "0xowner" { email := "b@x", owner := "0xowner", publicKey := "0xpub" }
    pkgStub "QmCid" { proof := "0xproof", publicSignals := [] }
    { hash := "0xtx" } (some { logs := [], blockNumber := none })
    (by decide) rfl rfl rfl rfl rfl rfl rfl rfl rfl

/-- Effects that belong to recipient resolution (the owner lookup and the
caller-supplied resolver call). -/
def isResolutionEffect : Effect → Bool
  | .resolveOwner _ => true
  | .resolverCall _ _ => true
  | _ => false

/-- C5 (amended): recipient resolution runs strictly before encryption,
storage, proving and submission, so a resolution failure (a throwing owner
lookup, a missing resolver, or a throwing resolver) aborts the dispatch
with that error before any encryption or storage call is made; but the
client performs no registered-owner check of its own — it never raises a
`RecipientUnregistered`-style error, and an absent (zero-address) owner is
passed straight to the caller-supplied resolver. -/
theorem C5_resolution_failure_before_encryption (env : ClientEnv) (p : SendMailParams)
    (hf : ¬p.from_ = "") :
    (∀ e, env.resolveEmail p.to_ = .error e →
      (sendMail env p).2 = .error e
      ∧ ∀ ef ∈ (sendMail env p).1, isResolutionEffect ef = true)
    ∧ (∀ resolver owner e, env.recipientResolver = some resolver →
        env.resolveEmail p.to_ = .ok owner → resolver p.to_ owner = .error e →
        (sendMail env p).2 = .error e
        ∧ ∀ ef ∈ (sendMail env p).1, isResolutionEffect ef = true) := by
  constructor
  · intro e hre
    simp only [sendMail, if_neg hf, hre]
    refine ⟨trivial, ?_⟩
    intro ef hef
    simp only [List.mem_singleton] at hef
    simp [hef, isResolutionEffect]
  · intro resolver owner e hrr hre hres
    simp only [sendMail, if_neg hf, hre, hrr, hres]
    refine ⟨trivial, ?_⟩
    intro ef hef
    rcases List.mem_pair.mp hef with h | h <;> simp [h, isResolutionEffect]

/-- Environment for the C5 counterexample: the registry reports the zero
address for the recipient (the registry's value for an unregistered email,
as the service's own sender check documents), the resolver still returns a
key, and dispatch proceeds all the way to a successful submission. -/
def env5 : ClientEnv :=
  { env4 with resolveEmail := fun _ => .ok zeroAddress }

/-- C5 counterexample: the recipient id has no registered on-chain owner
(the lookup yields the zero address), yet the dispatch does NOT fail with a
recipient-unregistered error: it encrypts, uploads and submits, reporting
success. -/
theorem C5_counterexample_no_unregistered_check :
    env5.resolveEmail params4.to_ = .ok zeroAddress
    ∧ (sendMail env5 params4).2 = .ok { mailId := "0", cid := "QmCid", txHash := "0xtx" }
    ∧ Effect.encryptStep "0xpub" ∈ (sendMail env5 params4).1
    ∧ Effect.submitStep (cidToBytes32 env5.keccak "QmCid") ∈ (sendMail env5 params4).1 :=
  ⟨rfl, rfl, by decide, by decide⟩

/-- Environment for the C5 witness: the owner lookup throws. -/
def env5w : ClientEnv :=
  { env4 with resolveEmail := fun _ => .error "call revert exception" }

theorem C5_resolution_failure_before_encryption_witness :
    (sendMail env5w params4).2 = .error "call revert exception"
    ∧ ∀ ef ∈ (sendMail env5w params4).1, isResolutionEffect ef = true :=
  (C5_resolution_failure_before_encryption env5w params4 (by decide)).1
    "call revert exception" rfl

theorem verifyStep_not_in_svcSubmitPhase (env : ServiceEnv)
    (prf cid se re ccid : String) :
    Effect.verifyStep ∉ (svcSubmitPhase env prf cid se re ccid).1 := by
  simp only [svcSubmitPhase]
  split
  · simp
  · split
    · simp
    · split
      · simp
      · split <;> simp

/-- C10: when the service holds no verification key (no
`verificationKeyPath` was configured, so `start()` loaded nothing), the
send handler never verifies the zero-knowledge proof: its entire behaviour
is unchanged under any replacement of the proof decoder and the verifier,
no verification effect ever occurs, and — once the request guards and the
pre-steps pass — the handler pins the content and submits the transaction
regardless of the supplied proof. -/
theorem C10_no_key_no_proof_verification (env : ServiceEnv) (req : SendMailRequest)
    (hk : env.verificationKey = none) :
    (∀ dec ver,
      handleSendMail { env with decodeProof := dec, groth16Verify := ver } req
        = handleSendMail env req)
    ∧ Effect.verifyStep ∉ (handleSendMail env req).1
    ∧ ((jsFalsy req.proof || jsFalsy req.cid || jsFalsy req.senderEmail
          || jsFalsy req.recipientEmail) = false →
        ∀ owner, env.resolveEmail (req.senderEmail.getD "") = .ok owner →
        ¬owner = zeroAddress →
        env.cidSet (cidToBytes32 env.keccak (req.cid.getD "")) (req.cid.getD "") = .ok () →
        Effect.pinStep (req.cid.getD "") ∈ (handleSendMail env req).1
        ∧ (env.pin (req.cid.getD "") = .ok () →
            Effect.submitStep (cidToBytes32 env.keccak (req.cid.getD ""))
              ∈ (handleSendMail env req).1)) := by
  refine ⟨?_, ?_, ?_⟩
  · intro dec ver
    obtain ⟨re, cs, kc, vk, dp, gv, bi, pi, su, wa, sa, mt, pl, nw⟩ := env
    cases hk
    rfl
  · simp only [handleSendMail, hk]
    split
    · simp
    · split
      · simp
      · split
        · simp
        · split
          · simp
          · simp only [List.cons_append, List.nil_append, List.mem_cons, not_or]
            refine ⟨by simp, by simp, ?_⟩
            exact verifyStep_not_in_svcSubmitPhase env _ _ _ _ _
  · intro hguards owner hre hnz hset
    simp only [handleSendMail, hk, hguards, Bool.false_eq_true, if_false, hre, if_neg hnz, hset]
    constructor
    · simp only [svcSubmitPhase]
      split
      · simp
      · split
        · simp
        · split
          · simp
          · split <;> simp
    · intro hpin
      simp only [svcSubmitPhase, hpin]
      split
      · simp
      · split
        · simp
        · split <;> simp

/-- Environment for the C10 witness: no verification key is loaded, and the
proof decoder / verifier behave arbitrarily differently. -/
def env10 : ServiceEnv :=
  { resolveEmail := fun _ => .ok "0xowner"
    cidSet := fun _ _ => .ok ()
    keccak := fun _ => []
    verificationKey := none
    decodeProof := fun _ => .error "bad proof encoding"
    groth16Verify := fun _ _ _ => .ok false
    bigIntStr := fun s => s
    pin := fun _ => .ok ()
    submit := fun _ _ _ _ => .ok { hash := "0xtx" }
    wait := fun _ => .ok (some { logs := [], blockNumber := none })
    saveRecord := fun _ => .ok ()
    mailSentTopic := some "0xtopic"
    parseLogMailId := fun _ => none
    now := 7 }

def req10 : SendMailRequest :=
  { proof := some "0xdeadbeef", cid := some "QmCid",
    senderEmail := some "a@x", recipientEmail := some "b@x" }

theorem C10_no_key_no_proof_verification_witness :
    handleSendMail { env10 with
      decodeProof := (fun _ => .ok [["1"]])
      groth16Verify := (fun _ _ _ => .ok true) } req10 = handleSendMail env10 req10
    ∧ Effect.verifyStep ∉ (handleSendMail env10 req10).1
    ∧ Effect.pinStep "QmCid" ∈ (handleSendMail env10 req10).1
    ∧ Effect.submitStep (cidToBytes32 env10.keccak "QmCid") ∈ (handleSendMail env10 req10).1 := by
  have h := C10_no_key_no_proof_verification env10 req10 rfl
  have h3 := h.2.2 (by decide) "0xowner" rfl (by decide) rfl
  exact ⟨h.1 (fun _ => .ok [["1"]]) (fun _ _ _ => .ok true), h.2.1, h3.1, h3.2 rfl⟩

end BaseMailer
